import Mathlib

/-!
Verification development for the Remo calendar assistant (a Telegram bot that
drives a slot-filling meeting-scheduling dialogue over chat messages).

The definitions below are a shallow embedding of the message-handling source:
pure entity extractors (time, date, duration, email, description), the
natural-language date/time resolver, the per-user dialogue state machine
`handleMeetingRequest`, and the top-level router `handleMessage`.

Modelling conventions:
* JavaScript strings are Lean `String`s; the regex matchers of the source are
  translated into explicit scanners over `List Char` with the same
  leftmost-match / first-alternative-wins / greedy-with-backtracking semantics.
* A JavaScript `Date` is modelled as an `Int` of minutes since the epoch in
  local time (the source never reads seconds or milliseconds and the model has
  no DST); calendar structure is recovered with the standard civil-calendar
  conversions.  `new Date(y, m, d)` field normalisation (month and day
  overflow, the 0..99 → 1900+y year rule) is modelled by `mkDateNum`.
* External collaborators (Google calendar, OAuth, the chat LLM) are abstracted
  into an `Env` of boolean/function parameters; outgoing `ctx.reply` calls are
  recorded as abstract `Reply` tags since no claim depends on reply text.
* The per-user dialogue store `userMeetingStates` is modelled per user as an
  `Option MeetingState` threaded through `handleMeetingRequest`.
-/

namespace Remo

/-! ## String utilities -/

/-- ASCII lower-casing of a character, as `String.prototype.toLowerCase`
behaves on the ASCII inputs this program manipulates. -/
def toLowerChar (c : Char) : Char :=
  if 'A' ≤ c ∧ c ≤ 'Z' then Char.ofNat (c.toNat + 32) else c

/-- Lower-case a string (ASCII). -/
def toLowerStr (s : String) : String :=
  String.mk (s.toList.map toLowerChar)

/-- Lower-cased character list of a string. -/
def lowerL (s : String) : List Char :=
  s.toList.map toLowerChar

/-- Whether `pat` occurs as a contiguous sublist of `s`
(JavaScript `String.prototype.includes`). -/
def subList (pat : List Char) : List Char → Bool
  | [] => pat.isEmpty
  | c :: rest => pat.isPrefixOf (c :: rest) || subList pat rest

/-- Substring containment on strings. -/
def strContains (s pat : String) : Bool :=
  subList pat.toList s.toList

/-- ASCII decimal digit test (regex `\d`). -/
def isDigitC (c : Char) : Bool := '0' ≤ c && c ≤ '9'

/-- ASCII letter test (regex `[A-Za-z]`). -/
def isAlphaC (c : Char) : Bool :=
  ('a' ≤ c && c ≤ 'z') || ('A' ≤ c && c ≤ 'Z')

/-- Regex `\w`: letter, digit or underscore. -/
def isWordC (c : Char) : Bool := isAlphaC c || isDigitC c || c == '_'

/-- Regex `\s` restricted to the ASCII whitespace the messages contain. -/
def isSpaceC (c : Char) : Bool :=
  c == ' ' || c == '\t' || c == '\n' || c == '\r'

/-- Numeric value of a list of decimal digit characters. -/
def digitsVal (l : List Char) : Nat :=
  l.foldl (fun acc c => acc * 10 + (c.toNat - '0'.toNat)) 0

/-- Split off the longest leading run of characters satisfying `p`. -/
def takeRun (p : Char → Bool) : List Char → List Char × List Char
  | [] => ([], [])
  | c :: rest =>
    if p c then
      let (r, rest') := takeRun p rest
      (c :: r, rest')
    else ([], c :: rest)

/-- Drop a literal prefix, or fail. -/
def dropLit (lit : List Char) (l : List Char) : Option (List Char) :=
  if lit.isPrefixOf l then some (l.drop lit.length) else none

/-- Consume at least one whitespace character (regex `\s+`). -/
def dropSpaces1 (l : List Char) : Option (List Char) :=
  let (sp, rest) := takeRun isSpaceC l
  if sp.isEmpty then none else some rest

/-- Consume any whitespace (regex `\s*`). -/
def dropSpaces0 (l : List Char) : List Char :=
  (takeRun isSpaceC l).2

/-- Greedily take one or two digits (regex `\d{1,2}`), longest first. -/
def take1or2Digits (l : List Char) : Option (Nat × List Char) :=
  match l with
  | c1 :: c2 :: rest =>
    if isDigitC c1 then
      if isDigitC c2 then some (digitsVal [c1, c2], rest)
      else some (digitsVal [c1], c2 :: rest)
    else none
  | [c1] => if isDigitC c1 then some (digitsVal [c1], []) else none
  | [] => none

/-- Take exactly `n` digits (regex `\d{n}`). -/
def takeDigitsExact (n : Nat) (l : List Char) : Option (Nat × List Char) :=
  let pre := l.take n
  if pre.length == n && pre.all isDigitC then some (digitsVal pre, l.drop n)
  else none

/-- Generic leftmost-match scan: try the position matcher `f` at every suffix
of the input, leftmost first, as an unanchored regex search does. -/
def scanFirst (f : List Char → Option α) : List Char → Option α
  | [] => f []
  | c :: rest =>
    match f (c :: rest) with
    | some a => some a
    | none => scanFirst f rest

/-! ## Time extraction (`TIME_EXPRESSIONS`, `extractTime`) -/

/-- The fixed table of named time expressions, in source declaration order
(object property insertion order, which drives `Object.entries`). -/
def TIME_EXPRESSIONS : List (String × String) :=
  [ ("noon", "12:00"), ("midnight", "00:00"), ("midday", "12:00"),
    ("morning", "09:00"), ("afternoon", "14:00"), ("evening", "18:00"),
    ("night", "20:00"), ("dawn", "06:00"), ("dusk", "18:00"),
    ("lunch", "12:00"), ("breakfast", "08:00"), ("dinner", "19:00"),
    ("brunch", "10:30"), ("eod", "17:00"), ("cob", "17:00"),
    ("early morning", "07:00"), ("late night", "23:00") ]

/-- First named time expression (in declaration order) contained in the
lower-cased message, mirroring the `for ... of Object.entries` loop. -/
def firstTimeExpr (lower : String) : Option (String × String) :=
  TIME_EXPRESSIONS.find? (fun p => strContains lower p.1)

/-- Groups produced by one time regex match: hour, minutes, optional meridian
(the source reads `match[1]`, `match[2]`, `match[3]`). -/
structure TimeGroups where
  hours : Nat
  minutes : Nat
  meridian : Option String
deriving DecidableEq, Repr

/-- Meridian alternation `am|pm|a.m.|p.m.` of time pattern 1, tried in
alternation order on the (lower-cased) input. -/
def matchMeridian4 (l : List Char) : Option String :=
  if ['a', 'm'].isPrefixOf l then some "am"
  else if ['p', 'm'].isPrefixOf l then some "pm"
  else if ['a', '.', 'm', '.'].isPrefixOf l then some "a.m."
  else if ['p', '.', 'm', '.'].isPrefixOf l then some "p.m."
  else none

/-- Meridian alternation `am|pm` of time pattern 5. -/
def matchMeridian2 (l : List Char) : Option String :=
  if ['a', 'm'].isPrefixOf l then some "am"
  else if ['p', 'm'].isPrefixOf l then some "pm"
  else none

/-- Optional group `(?::(\d{2}))?`: a colon followed by exactly two digits. -/
def optColonMinutes (l : List Char) : Nat × List Char :=
  match l with
  | ':' :: rest =>
    match takeDigitsExact 2 rest with
    | some (m, rest') => (m, rest')
    | none => (0, ':' :: rest)
  | _ => (0, l)

/-- Time pattern 1, `(\d{1,2})(?::(\d{2}))?\s*(am|pm|a\.m\.|p\.m\.)?`,
matched at one position of the lower-cased message. -/
def timePat1At (l : List Char) : Option TimeGroups :=
  match take1or2Digits l with
  | none => none
  | some (h, rest) =>
    let (m, rest1) := optColonMinutes rest
    let rest2 := dropSpaces0 rest1
    some ⟨h, m, matchMeridian4 rest2⟩

/-- Time pattern 2, `(\d{1,2})[.:](\d{2})`, matched at one position. -/
def timePat2At (l : List Char) : Option TimeGroups :=
  match take1or2Digits l with
  | none => none
  | some (h, rest) =>
    match rest with
    | c :: rest1 =>
      if c == '.' || c == ':' then
        match takeDigitsExact 2 rest1 with
        | some (m, _) => some ⟨h, m, none⟩
        | none => none
      else none
    | [] => none

/-- The quote character class of time pattern 3 (straight apostrophe and the
right single quotation mark). -/
def isQuoteC (c : Char) : Bool :=
  c == Char.ofNat 39 || c == Char.ofNat 8217

/-- Time pattern 3: a digit group, optional spaces, the letter o, one quote
character, optional spaces and the literal clock, matched at one position of
the lower-cased message. -/
def timePat3At (l : List Char) : Option TimeGroups :=
  match take1or2Digits l with
  | none => none
  | some (h, rest) =>
    match dropSpaces0 rest with
    | 'o' :: q :: rest1 =>
      if isQuoteC q then
        match dropLit ['c', 'l', 'o', 'c', 'k'] (dropSpaces0 rest1) with
        | some _ => some ⟨h, 0, none⟩
        | none => none
      else none
    | _ => none

/-- Time pattern 4, `(\d{1,2})\s*hrs`, matched at one position. -/
def timePat4At (l : List Char) : Option TimeGroups :=
  match take1or2Digits l with
  | none => none
  | some (h, rest) =>
    match dropLit ['h', 'r', 's'] (dropSpaces0 rest) with
    | some _ => some ⟨h, 0, none⟩
    | none => none

/-- Time pattern 5, `at\s+(\d{1,2})(?::(\d{2}))?\s*(am|pm)?`, matched at one
position of the lower-cased message. -/
def timePat5At (l : List Char) : Option TimeGroups :=
  match dropLit ['a', 't'] l with
  | none => none
  | some rest0 =>
    match dropSpaces1 rest0 with
    | none => none
    | some rest1 =>
      match take1or2Digits rest1 with
      | none => none
      | some (h, rest2) =>
        let (m, rest3) := optColonMinutes rest2
        some ⟨h, m, matchMeridian2 (dropSpaces0 rest3)⟩

/-- The ordered regex pattern list of `extractTime`; the source loops over the
patterns and returns on the first one that matches anywhere in the message. -/
def timePatterns : List (List Char → Option TimeGroups) :=
  [timePat1At, timePat2At, timePat3At, timePat4At, timePat5At]

/-- First pattern of `timePatterns` that matches the message, searched in
pattern order and, within a pattern, leftmost first. -/
def firstTimePattern (lower : List Char) : Option TimeGroups :=
  timePatterns.findSome? (fun pat => scanFirst pat lower)

/-- Meridian normalisation of `extractTime` (source lines mutating `hours`):
"pm" adds 12 below 12, "am" maps 12 to 0, and with no meridian an
evening/night cue in the message promotes hours below 12. -/
def normalizeHour (hours : Nat) (meridian : Option String) (cue : Bool) : Nat :=
  let h1 := if (meridian.map (fun m => strContains m "p")).getD false && hours < 12
            then hours + 12 else hours
  let h2 := if (meridian.map (fun m => strContains m "a")).getD false && h1 == 12
            then 0 else h1
  if meridian.isNone && h2 < 12 && cue then h2 + 12 else h2

/-- Zero-pad a number to two characters (`String.prototype.padStart(2, '0')`). -/
def pad2 (n : Nat) : String :=
  if n < 10 then "0" ++ toString n else toString n

/-- Render an hour/minute pair as the `"HH:MM"` output of `extractTime`. -/
def formatHM (h m : Nat) : String :=
  pad2 h ++ ":" ++ pad2 m

/-- The `extractTime` function: named time expressions first (first table
entry contained in the message wins), then the regex patterns with meridian
normalisation; `none` models the `null` miss. -/
def extractTime (message : String) : Option String :=
  let lower := toLowerStr message
  match firstTimeExpr lower with
  | some p => some p.2
  | none =>
    match firstTimePattern lower.toList with
    | some g =>
      let cue := strContains lower "evening" || strContains lower "night"
      some (formatHM (normalizeHour g.hours g.meridian cue) g.minutes)
    | none => none

/-! ## Calendar arithmetic (the JavaScript `Date` model)

Timestamps are minutes since 1970-01-01 00:00 local time; day numbers are
days since 1970-01-01.  The civil-calendar conversions are the standard
era-based algorithms. -/

/-- Day number of the civil date `y-m-d` with `m` in 1..12 (days since
1970-01-01; the algorithm also normalises day overflow naturally). -/
def daysFromCivil (y m d : Int) : Int :=
  let y1 := y - (if m ≤ 2 then 1 else 0)
  let era := y1 / 400
  let yoe := y1 - era * 400
  let mp := m + (if m > 2 then -3 else 9)
  let doy := (153 * mp + 2) / 5 + d - 1
  let doe := yoe * 365 + yoe / 4 - yoe / 100 + doy
  era * 146097 + doe - 719468

/-- Civil date (year, month 1..12, day 1..31) of a day number. -/
def civilFromDays (z : Int) : Int × Int × Int :=
  let z1 := z + 719468
  let era := z1 / 146097
  let doe := z1 - era * 146097
  let yoe := (doe - doe / 1460 + doe / 36524 - doe / 146096) / 365
  let y := yoe + era * 400
  let doy := doe - (365 * yoe + yoe / 4 - yoe / 100)
  let mp := (5 * doy + 2) / 153
  let d := doy - (153 * mp + 2) / 5 + 1
  let m := mp + (if mp < 10 then 3 else -9)
  (y + (if m ≤ 2 then 1 else 0), m, d)

/-- The legacy `Date` constructor maps year arguments 0..99 to 1900..1999. -/
def jsFullYear (y : Int) : Int :=
  if 0 ≤ y ∧ y ≤ 99 then 1900 + y else y

/-- Day number of `new Date(y, monthIndex, day)`: applies the two-digit-year
rule, then normalises month overflow (`monthIndex` is 0-based and may lie
outside 0..11) and day overflow (`day` may be 0, negative or too large). -/
def mkDateNum (y monthIndex day : Int) : Int :=
  let fy := jsFullYear y
  let y1 := fy + monthIndex / 12
  let m0 := monthIndex % 12
  daysFromCivil y1 (m0 + 1) 1 + (day - 1)

/-- Day number of the day containing a minute timestamp. -/
def tsDay (ts : Int) : Int := ts / 1440

/-- Timestamp of local midnight of the day containing `ts`
(`date.setHours(0, 0, 0, 0)`). -/
def midnightOf (ts : Int) : Int := 1440 * tsDay ts

/-- Weekday of a day number, 0 = Sunday .. 6 = Saturday (1970-01-01 was a
Thursday), matching `Date.prototype.getDay`. -/
def weekdayOf (n : Int) : Int := (n + 4) % 7

/-- `getDay()` of a minute timestamp. -/
def getDayTs (ts : Int) : Int := weekdayOf (tsDay ts)

/-- Civil components of the day of a timestamp, for `getFullYear`,
`getMonth` (0-based) and `getDate`. -/
structure Civil where
  year : Int
  month0 : Int
  day : Int
deriving DecidableEq, Repr

/-- Decompose a timestamp into its civil day components. -/
def civilOf (ts : Int) : Civil :=
  let (y, m, d) := civilFromDays (tsDay ts)
  ⟨y, m - 1, d⟩

/-! ## Weekday resolution (`getWeekdayDate`) -/

/-- The weekday-name table of `getWeekdayDate`, Sunday first. -/
def weekdays : List String :=
  ["sunday", "monday", "tuesday", "wednesday", "thursday", "friday", "saturday"]

/-- A calendar day used as the `today` of `getWeekdayDate`; `month0` is the
0-based month as `Date.prototype.getMonth` returns it.  The source only reads
`getDay`, `getFullYear`, `getMonth` and day-granular `setDate` from its
`new Date()`, so the time of day is irrelevant and dropped. -/
structure CivilDate where
  year : Int
  month0 : Int
  day : Int
deriving DecidableEq, Repr

/-- Day number of a `CivilDate`. -/
def civilToNum (c : CivilDate) : Int :=
  mkDateNum c.year c.month0 c.day

/-- Day number of the last day of the month of `c`
(`new Date(y, m + 1, 0)`). -/
def lastOfMonthNum (c : CivilDate) : Int :=
  mkDateNum c.year (c.month0 + 1) 0

/-- The `getWeekdayDate(weekday, qualifier)` resolver, returning the day
number of the resolved date (or `none` for an unknown weekday name). -/
def getWeekdayDate (today : CivilDate) (weekday qualifier : String) : Option Int :=
  match weekdays.findIdx? (fun w => w == toLowerStr weekday) with
  | none => none
  | some targetNat =>
    let target : Int := targetNat
    let todayNum := civilToNum today
    let current := weekdayOf todayNum
    let q := toLowerStr qualifier
    if q == "next" then
      some (todayNum + (target - current + 7))
    else if q == "this" then
      let d := target - current
      some (todayNum + (if d ≤ 0 then d + 7 else d))
    else if q == "coming" then
      let d := target - current
      some (todayNum + (if d ≤ 0 then d + 7 else d))
    else if q == "last" then
      let lastNum := lastOfMonthNum today
      let lw := weekdayOf lastNum
      let d := target - lw
      some (lastNum + (if d > 0 then d - 7 else d))
    else
      let d := target - current
      some (todayNum + (if d ≤ 0 then d + 7 else d))

/-! ## Date resolution (`DATE_EXPRESSIONS`, `parseDateInput`,
`isValidFutureDate`) -/

/-- Future-date validity: the resolved date must be on or after today at
midnight (`date >= today` after `today.setHours(0,0,0,0)`). -/
def isValidFutureDate (now date : Int) : Bool :=
  decide (midnightOf now ≤ date)

/-- The named relative date expression table, in declaration order; each
entry maps the current timestamp to the resolved timestamp, exactly as the
source arrow functions transform their `new Date()` argument. -/
def DATE_EXPRESSIONS : List (String × (Int → Int)) :=
  [ ("today", fun now => now),
    ("tomorrow", fun now => now + 1440),
    ("day after tomorrow", fun now => now + 2 * 1440),
    ("next week", fun now => now + 7 * 1440),
    ("weekend", fun now => now + (6 - getDayTs now) * 1440),
    ("month end", fun now =>
      let c := civilOf now
      1440 * mkDateNum c.year (c.month0 + 1) 0),
    ("next month", fun now =>
      let c := civilOf now
      1440 * mkDateNum c.year (c.month0 + 1) c.day + (now - midnightOf now)),
    ("christmas", fun now => 1440 * mkDateNum (civilOf now).year 11 25),
    ("new year", fun now => 1440 * mkDateNum ((civilOf now).year + 1) 0 1) ]

/-- First relative expression whose key occurs in the lower-cased input. -/
def findRelExpr (lowerInput : String) : Option (String × (Int → Int)) :=
  DATE_EXPRESSIONS.find? (fun p => strContains lowerInput p.1)

/-- Whether any relative expression key occurs in the lower-cased input. -/
def hasRelativeDateExpr (lowerInput : String) : Bool :=
  DATE_EXPRESSIONS.any (fun p => strContains lowerInput p.1)

/-- The anchored numeric date pattern
`^(\d{1,2})[-\/](\d{1,2})(?:[-\/](\d{4}))?$`:
returns day, month and the optional four-digit year. -/
def numericParse (l : List Char) : Option (Nat × Nat × Option Nat) :=
  match take1or2Digits l with
  | none => none
  | some (day, rest1) =>
    match rest1 with
    | s1 :: rest2 =>
      if s1 == '-' || s1 == '/' then
        match take1or2Digits rest2 with
        | none => none
        | some (mon, rest3) =>
          match rest3 with
          | [] => some (day, mon, none)
          | s2 :: rest4 =>
            if s2 == '-' || s2 == '/' then
              match takeDigitsExact 4 rest4 with
              | some (yr, []) => some (day, mon, some yr)
              | _ => none
            else none
      else none
    | [] => none

/-- The twelve month names with their 0-based indexes, in scan order. -/
def monthTable : List (Nat × String) :=
  [ (0, "january"), (1, "february"), (2, "march"), (3, "april"),
    (4, "may"), (5, "june"), (6, "july"), (7, "august"),
    (8, "september"), (9, "october"), (10, "november"), (11, "december") ]

/-- The spelled-ordinal table `dayNumbers`, in declaration order. -/
def dayNumbers : List (String × Nat) :=
  [ ("first", 1), ("second", 2), ("third", 3), ("fourth", 4), ("fifth", 5),
    ("sixth", 6), ("seventh", 7), ("eighth", 8), ("ninth", 9), ("tenth", 10),
    ("eleventh", 11), ("twelfth", 12), ("thirteenth", 13), ("fourteenth", 14),
    ("fifteenth", 15), ("sixteenth", 16), ("seventeenth", 17),
    ("eighteenth", 18), ("nineteenth", 19), ("twentieth", 20),
    ("twenty-first", 21), ("twenty-second", 22), ("twenty-third", 23),
    ("twenty-fourth", 24), ("twenty-fifth", 25), ("twenty-sixth", 26),
    ("twenty-seventh", 27), ("twenty-eighth", 28), ("twenty-ninth", 29),
    ("thirtieth", 30), ("thirty-first", 31) ]

/-- Optional ordinal suffix `(?:st|nd|rd|th)?`, alternation order. -/
def dropOrdinalSuffix (l : List Char) : List Char :=
  match dropLit ['s', 't'] l with
  | some r => r
  | none =>
    match dropLit ['n', 'd'] l with
    | some r => r
    | none =>
      match dropLit ['r', 'd'] l with
      | some r => r
      | none =>
        match dropLit ['t', 'h'] l with
        | some r => r
        | none => l

/-- Optional trailing year group `(?:\s+(\d{4}))?`: at least one space then
exactly four digits, else no year. -/
def optYearGroup (l : List Char) : Option Nat :=
  match dropSpaces1 l with
  | none => none
  | some rest =>
    match takeDigitsExact 4 rest with
    | some (y, _) => some y
    | none => none

/-- Month pattern 1 for one month,
`(\d{1,2})(?:st|nd|rd|th)?\s+<mon3>\w*(?:\s+(\d{4}))?`, matched at one
position of the lower-cased input; `mon3` is the
three-letter month prefix. -/
def monthPat1At (mon3 : List Char) (l : List Char) : Option (Nat × Option Nat) :=
  match take1or2Digits l with
  | none => none
  | some (day, rest0) =>
    let rest1 := dropOrdinalSuffix rest0
    match dropSpaces1 rest1 with
    | none => none
    | some rest2 =>
      match dropLit mon3 rest2 with
      | none => none
      | some rest3 =>
        let rest4 := (takeRun isWordC rest3).2
        some (day, optYearGroup rest4)

/-- Month pattern 2 for one spelled ordinal and month,
`<dayWord>\s+<month>(?:\s+(\d{4}))?`, matched at one position. -/
def monthPat2At (dayWord month : List Char) (l : List Char) : Option (Option Nat) :=
  match dropLit dayWord l with
  | none => none
  | some rest0 =>
    match dropSpaces1 rest0 with
    | none => none
    | some rest1 =>
      match dropLit month rest1 with
      | none => none
      | some rest2 => some (optYearGroup rest2)

/-- Build the candidate date of a month-branch match and apply the
future-date guard; a match always returns from `parseDateInput` (valid date
or `null`), which the outer `Option` layer records. -/
def guardDate (now ts : Int) : Option Int :=
  if isValidFutureDate now ts then some ts else none

/-- Inner loop of the month scan over the spelled-ordinal table. -/
def dayWordScan (now : Int) (monthIdx : Nat) (month : List Char)
    (defaultYear : Int) (l : List Char) :
    List (String × Nat) → Option (Option Int)
  | [] => none
  | (w, dayNum) :: rest =>
    match scanFirst (monthPat2At w.toList month) l with
    | some yr? =>
      let year : Int := match yr? with
        | some y => (y : Int)
        | none => defaultYear
      some (guardDate now (1440 * mkDateNum year (monthIdx : Int) (dayNum : Int)))
    | none => dayWordScan now monthIdx month defaultYear l rest

/-- Outer loop of the month scan: for each month try pattern 1 then every
spelled ordinal with pattern 2; the first match wins. -/
def monthScan (now : Int) (defaultYear : Int) (l : List Char) :
    List (Nat × String) → Option (Option Int)
  | [] => none
  | (idx, name) :: rest =>
    match scanFirst (monthPat1At (name.toList.take 3)) l with
    | some (day, yr?) =>
      let year : Int := match yr? with
        | some y => (y : Int)
        | none => defaultYear
      some (guardDate now (1440 * mkDateNum year (idx : Int) (day : Int)))
    | none =>
      match dayWordScan now idx name.toList defaultYear l dayNumbers with
      | some r => some r
      | none => monthScan now defaultYear l rest

/-- The `parseDateInput` resolver.  `now` is the current timestamp and
`jsParse` abstracts the host `new Date(string)` generic parser (`none` for an
invalid date); relative expressions are returned unguarded, every other
branch applies the future-date guard. -/
def parseDateInput (now : Int) (jsParse : String → Option Int)
    (input : String) : Option Int :=
  let lowerInput := toLowerStr input
  match findRelExpr lowerInput with
  | some p => some (p.2 now)
  | none =>
    match numericParse lowerInput.toList with
    | some (day, mon, yr?) =>
      let year : Int := match yr? with
        | some y => (y : Int)
        | none => (civilOf now).year
      guardDate now (1440 * mkDateNum year ((mon : Int) - 1) (day : Int))
    | none =>
      match monthScan now (civilOf now).year lowerInput.toList monthTable with
      | some r => r
      | none =>
        match jsParse input with
        | some ts => if isValidFutureDate now ts then some ts else none
        | none => none

/-! ## Entity extraction over the initial message (`analyzeMeetingRequest`)
and the small input validators -/

/-- Case-insensitive literal match: drop `lit` (given lower-case) from the
front of `l`, comparing lower-cased characters, keeping the raw remainder. -/
def dropLitCI : List Char → List Char → Option (List Char)
  | [], l => some l
  | _ :: _, [] => none
  | p :: ps, c :: cs => if toLowerChar c == p then dropLitCI ps cs else none

/-- First alternative of a case-insensitive literal alternation that matches
at this position; returns the raw remainder. -/
def dropAltCI (alts : List (List Char)) (l : List Char) : Option (List Char) :=
  alts.findSome? (fun a => dropLitCI a l)

/-- The `analyzeMeetingRequest` time regex
`(\d{1,2})(?::(\d{2}))?\s*(am|pm|AM|PM)?` (no ignore-case flag), matched at
one position; returns the length of `match[0]`. -/
def analyzeTimeAt (l : List Char) : Option Nat :=
  match take1or2Digits l with
  | none => none
  | some (_, rest) =>
    let (_, rest1) := optColonMinutes rest
    let rest2 := dropSpaces0 rest1
    let rest3 :=
      if ['a', 'm'].isPrefixOf rest2 || ['p', 'm'].isPrefixOf rest2 ||
         ['A', 'M'].isPrefixOf rest2 || ['P', 'M'].isPrefixOf rest2
      then rest2.drop 2 else rest2
    some (l.length - rest3.length)

/-- The `match[0]` text of the first `analyzeMeetingRequest` time match. -/
def analyzeTimeMatch (msg : String) : Option String :=
  let l := msg.toList
  let f : List Char → Option (List Char) := fun suff =>
    (analyzeTimeAt suff).map (fun len => suff.take len)
  (scanFirst f l).map String.mk

/-- The name regex `(?:with|for)\s+([A-Za-z]+)` (ignore-case): returns the
captured letter run. -/
def nameMatchAt (l : List Char) : Option String :=
  match dropAltCI [['w', 'i', 't', 'h'], ['f', 'o', 'r']] l with
  | none => none
  | some rest =>
    match dropSpaces1 rest with
    | none => none
    | some rest1 =>
      let (letters, _) := takeRun isAlphaC rest1
      if letters.isEmpty then none else some (String.mk letters)

/-- The prefix alternation of the date-token regex. -/
def dateLeadAlts : List (List Char) :=
  [['o', 'n'], ['f', 'o', 'r'], ['n', 'e', 'x', 't'],
   ['t', 'o', 'd', 'a', 'y'], ['t', 'o', 'm', 'o', 'r', 'r', 'o', 'w']]

/-- The optional captured alternation of the date-token regex. -/
def dateGroupAlts : List String :=
  ["monday", "tuesday", "wednesday", "thursday", "friday", "saturday",
   "sunday", "tomorrow", "today"]

/-- The date-token regex
`(?:on|for|next|today|tomorrow)\s*(monday|...|sunday|tomorrow|today)?`
(ignore-case) at one position: `some g` when the pattern matches, where `g`
is the optional captured group. -/
def dateTokenAt (l : List Char) : Option (Option String) :=
  match dropAltCI dateLeadAlts l with
  | none => none
  | some rest =>
    let rest1 := dropSpaces0 rest
    some (dateGroupAlts.findSome? (fun w =>
      match dropLitCI w.toList rest1 with
      | some _ => some w
      | none => none))

/-- The duration regex `(\d+)\s*(?:min|minutes?|hrs?|hours?)` (ignore-case)
at one position: captured number and whether `match[0]` contains "hour"
(true exactly when the `hours?` alternative matched). -/
def durationAt (l : List Char) : Option (Nat × Bool) :=
  let (digits, rest) := takeRun isDigitC l
  if digits.isEmpty then none
  else
    let rest1 := dropSpaces0 rest
    if ['m', 'i', 'n'].isPrefixOf (rest1.map toLowerChar) then
      some (digitsVal digits, false)
    else if ['h', 'r'].isPrefixOf (rest1.map toLowerChar) then
      some (digitsVal digits, false)
    else if ['h', 'o', 'u', 'r'].isPrefixOf (rest1.map toLowerChar) then
      some (digitsVal digits, true)
    else none

/-- The character class `[\w.-]` of the email regex. -/
def emailClassC (c : Char) : Bool :=
  isWordC c || c == '.' || c == '-'

/-- One match of the global email regex `[\w.-]+@[\w.-]+\.\w+` at this
position: the matched text and the remainder after it.  The backtracking of
the greedy domain run resolves to the last dot of the run that is followed
by a word character. -/
def emailMatchAt (l : List Char) : Option (String × List Char) :=
  let (localPart, rest) := takeRun emailClassC l
  if localPart.isEmpty then none
  else
    match rest with
    | '@' :: rest1 =>
      let (run, _) := takeRun emailClassC rest1
      match (List.range run.length).reverse.find? (fun p =>
          run.getD p ' ' == '.' && decide (1 ≤ p) && decide (p + 1 < run.length) &&
          isWordC (run.getD (p + 1) ' ')) with
      | none => none
      | some p =>
        let wordRun := (takeRun isWordC (run.drop (p + 1))).1
        let total := localPart.length + 1 + p + 1 + wordRun.length
        some (String.mk (l.take total), l.drop total)
    | _ => none

/-- All matches of the global email regex, fuelled by the input length. -/
def findEmailsAux : Nat → List Char → List String
  | 0, _ => []
  | _ + 1, [] => []
  | fuel + 1, c :: rest =>
    match emailMatchAt (c :: rest) with
    | some (m, rest') => m :: findEmailsAux fuel rest'
    | none => findEmailsAux fuel rest

/-- Every email-shaped token in the message, in order
(`message.match(emailPattern) || []`). -/
def findEmails (msg : String) : List String :=
  findEmailsAux msg.toList.length msg.toList

/-- The quote character class (double quote and apostrophe) of the
description regex. -/
def isDescQuoteC (c : Char) : Bool :=
  c == '"' || c == Char.ofNat 39

/-- Tail of the description regex after the lead alternation: optional
spaces, an optional quote character, then the captured run of non-quote
characters, which must be nonempty.  When the first
non-space character is a quote the group starts after it (a failing group
cannot recover by re-reading the quote, since the group class excludes
quotes). -/
def descTail (rest : List Char) : Option String :=
  let rest1 := dropSpaces0 rest
  let rest2 := if isDescQuoteC (rest1.headD ' ') then rest1.drop 1 else rest1
  let (grp, _) := takeRun (fun c => !isDescQuoteC c) rest2
  if grp.isEmpty then none else some (String.mk grp)

/-- The description regex (lead alternation with description, description
with an optional colon, about, regarding; then an optionally quoted captured
phrase), case-insensitive, at one position: the captured text, in original
case.  The
lead alternatives start with pairwise distinct letters, so at one position
at most one can apply; the greedy optional colon of `description:?` is
given back when the tail fails with it. -/
def descAt (l : List Char) : Option String :=
  match dropLitCI "with description".toList l with
  | some r => descTail r
  | none =>
    match dropLitCI "description".toList l with
    | some r =>
      match r with
      | ':' :: r2 =>
        match descTail r2 with
        | some g => some g
        | none => descTail (':' :: r2)
      | _ => descTail r
    | none =>
      match dropLitCI "about".toList l with
      | some r => descTail r
      | none =>
        match dropLitCI "regarding".toList l with
        | some r => descTail r
        | none => none

/-- The result record of `analyzeMeetingRequest` (the `has*` flags and
`extractedInfo`). -/
structure Analysis where
  hasTime : Bool
  hasName : Bool
  hasDate : Bool
  hasDuration : Bool
  hasEmail : Bool
  time : Option String
  name : Option String
  date : Option String
  duration : Option Int
  emails : List String
  description : Option String
deriving DecidableEq, Repr

/-- The `analyzeMeetingRequest` extractor over the initial message. -/
def analyzeMeetingRequest (msg : String) : Analysis :=
  let lower := toLowerStr msg
  let timeM := analyzeTimeMatch msg
  let nameM := scanFirst nameMatchAt msg.toList
  let dateM := scanFirst dateTokenAt msg.toList
  let durM := scanFirst durationAt msg.toList
  let emails := findEmails msg
  let descM := scanFirst descAt msg.toList
  let hasToday := strContains lower "today"
  let noDesc := strContains lower "no description"
  { hasTime := timeM.isSome
    hasName := nameM.isSome
    hasDate := hasToday || dateM.isSome
    hasDuration := durM.isSome
    hasEmail := !emails.isEmpty
    time := timeM.bind extractTime
    name := nameM
    date := if hasToday then some "today" else dateM.bind id
    duration := durM.map (fun (n, isHour) => if isHour then (n : Int) * 60 else (n : Int))
    emails := emails
    description := if noDesc then none else descM }

/-- The `validateEmail` full-string check
`^[a-zA-Z0-9._%+-]+@[a-zA-Z0-9.-]+\.[a-zA-Z]{2,}$`. -/
def validateEmail (s : String) : Option String :=
  let l := s.toList
  let localOk : Char → Bool := fun c =>
    isAlphaC c || isDigitC c || c == '.' || c == '_' || c == '%' || c == '+' || c == '-'
  let domOk : Char → Bool := fun c => isAlphaC c || isDigitC c || c == '.' || c == '-'
  let (localPart, rest) := takeRun localOk l
  if localPart.isEmpty then none
  else
    match rest with
    | '@' :: restD =>
      match (List.range restD.length).reverse.find? (fun p => restD.getD p ' ' == '.') with
      | none => none
      | some q =>
        let tail := restD.drop (q + 1)
        if decide (1 ≤ q) && (restD.take q).all domOk &&
           decide (2 ≤ tail.length) && tail.all isAlphaC
        then some s else none
    | _ => none

/-- JavaScript `parseInt` with no radix argument: skip whitespace, optional
sign, then a hexadecimal literal after `0x`/`0X` or a maximal decimal digit
run; no digits means `NaN`, modelled as `none`. -/
def parseIntJs (s : String) : Option Int :=
  let l := dropSpaces0 s.toList
  let (sign, l1) : Int × List Char :=
    match l with
    | '-' :: r => (-1, r)
    | '+' :: r => (1, r)
    | _ => (1, l)
  let isHexDigit : Char → Bool := fun c =>
    isDigitC c || ('a' ≤ c && c ≤ 'f') || ('A' ≤ c && c ≤ 'F')
  let hexVal : Char → Nat := fun c =>
    if isDigitC c then c.toNat - '0'.toNat
    else if 'a' ≤ c && c ≤ 'f' then c.toNat - 'a'.toNat + 10
    else c.toNat - 'A'.toNat + 10
  match l1 with
  | '0' :: x :: r =>
    if x == 'x' || x == 'X' then
      let (hex, _) := takeRun isHexDigit r
      if hex.isEmpty then none
      else some (sign * (hex.foldl (fun acc c => acc * 16 + hexVal c) 0 : Nat))
    else
      let (digits, _) := takeRun isDigitC ('0' :: x :: r)
      some (sign * (digitsVal digits : Nat))
  | _ =>
    let (digits, _) := takeRun isDigitC l1
    if digits.isEmpty then none else some (sign * (digitsVal digits : Nat))

/-! ## The dialogue state machine (`handleMeetingRequest`) -/

/-- The dialogue step tags of `MeetingState.step` (creation flow plus the
two cancellation-flow steps set by `handleCancelRequest`). -/
inductive Step where
  | date | time | email | duration | description | confirm
  | confirmCancel | selectCancel
deriving DecidableEq, Repr

/-- The collected slots (`MeetingState.details`); the date slot is a
timestamp, the time slot an `"HH:MM"` string. -/
structure MeetingDetails where
  date : Option Int
  time : Option String
  duration : Option Int
  attendees : List String
  description : Option String
deriving DecidableEq, Repr

/-- The dialogue state of one user, the value type of `userMeetingStates`. -/
structure MeetingState where
  step : Step
  details : MeetingDetails
deriving DecidableEq, Repr

/-- Abstract tags for the outgoing `ctx.reply` calls; no claim depends on
reply text, only on which reply path ran. -/
inductive Reply where
  | cancelled | entrySummary
  | invalidDate | askTimeAfterDate | askEmailAfterDate
  | invalidTime | askEmailAfterTime | askDurationAfterTime
  | invalidEmail | askDurationAfterEmail | askDescriptionAfterEmail
  | invalidDuration | askDescription
  | confirmSummary
  | authRequest | createdOk | createFailed | startOver
deriving DecidableEq, Repr

/-- The external collaborators and the clock, abstracted: `now` is the
current timestamp, `authorized` the `isUserAuthorized` answer,
`createMeeting start end attendees` the calendar creation outcome, and
`jsParse` the host generic date parser used by `parseDateInput`. -/
structure Env where
  now : Int
  authorized : Bool
  createMeeting : Int → Int → List String → Bool
  jsParse : String → Option Int

/-- The cancellation keyword list checked (by substring) before any per-step
logic. -/
def cancelKeywords : List String :=
  ["cancel", "stop", "no", "quit", "exit", "nevermind", "never mind"]

/-- Whether the message contains a cancellation keyword as a substring of
its lower-casing. -/
def hasCancelKeyword (msg : String) : Bool :=
  cancelKeywords.any (fun kw => strContains (toLowerStr msg) kw)

/-- Hour and minute fields of an `"HH:MM"` slot value
(`time.split(':')` then `parseInt`); the slots only ever hold values
produced by `extractTime`, so both parses succeed. -/
def timeParts (t : String) : Int × Int :=
  match t.splitOn ":" with
  | h :: m :: _ => ((parseIntJs h).getD 0, (parseIntJs m).getD 0)
  | h :: _ => ((parseIntJs h).getD 0, 0)
  | [] => (0, 0)

/-- Entry analysis of a first meeting-intent message: runs
`analyzeMeetingRequest`, seeds the slots, applies the literal-"today"
override, and picks the first unfilled step in the order
date → time → email → duration, defaulting to `confirm`. -/
def entryState (env : Env) (msg : String) : MeetingState :=
  let analysis := analyzeMeetingRequest msg
  let date0 : Option Int :=
    match analysis.date with
    | some ds => parseDateInput env.now env.jsParse ds
    | none => none
  let date : Option Int :=
    if strContains (toLowerStr msg) "today" then some env.now else date0
  let details : MeetingDetails :=
    { date := date
      time := analysis.time
      duration := analysis.duration
      attendees := analysis.emails
      description := analysis.description }
  let step : Step :=
    if details.date.isNone then .date
    else if details.time.isNone then .time
    else if details.attendees.isEmpty then .email
    else if details.duration.isNone then .duration
    else .confirm
  ⟨step, details⟩

/-- Outcome of one `switch (state.step)` branch: `ret` is an early `return`
(carrying the store as the branch left it), `brk` falls through to the
trailing `userMeetingStates.set(userId, state)`, which stores the carried
state object regardless of any `delete` the branch performed. -/
inductive StepOutcome where
  | ret : Option MeetingState → List Reply → StepOutcome
  | brk : MeetingState → List Reply → StepOutcome

/-- One `switch (state.step)` branch of `handleMeetingRequest` for an
existing dialogue (cancellation keywords were already handled).  In the
`confirm` branch both the successful-execution path and the
neither-"yes"-nor-cancel path call `userMeetingStates.delete` and then
`break`; the deletion is undone by the trailing `set`, which `brk`
models. -/
def stepBody (env : Env) (st : MeetingState) (msg : String) : StepOutcome :=
  match st.step with
  | .date =>
    match parseDateInput env.now env.jsParse msg with
    | none => .ret (some st) [.invalidDate]
    | some d =>
      let st' : MeetingState :=
        { step := if st.details.time.isSome then .email else .time
          details := { st.details with date := some d } }
      .brk st' [if st.details.time.isSome then .askEmailAfterDate else .askTimeAfterDate]
  | .time =>
    match extractTime msg with
    | none => .ret (some st) [.invalidTime]
    | some t =>
      let st' : MeetingState :=
        { step := if st.details.attendees.isEmpty then .email else .duration
          details := { st.details with time := some t } }
      .brk st' [if st.details.attendees.isEmpty then .askEmailAfterTime else .askDurationAfterTime]
  | .email =>
    match validateEmail msg with
    | none => .ret (some st) [.invalidEmail]
    | some e =>
      let st' : MeetingState :=
        { step := if st.details.duration.isSome then .description else .duration
          details := { st.details with attendees := [e] } }
      .brk st' [if st.details.duration.isSome then .askDescriptionAfterEmail else .askDurationAfterEmail]
  | .duration =>
    match parseIntJs msg with
    | none => .ret (some st) [.invalidDuration]
    | some d =>
      if d ≤ 0 ∨ 480 < d then .ret (some st) [.invalidDuration]
      else
        .brk { step := .description, details := { st.details with duration := some d } }
          [.askDescription]
  | .description =>
    let details :=
      if toLowerStr msg ≠ "skip" then { st.details with description := some msg }
      else st.details
    .brk { step := .confirm, details := details } [.confirmSummary]
  | .confirm =>
    if strContains (toLowerStr msg) "yes" then
      if !env.authorized then .ret (some st) [.authRequest]
      else
        let dateTs := st.details.date.getD 0
        let (h, m) := timeParts (st.details.time.getD "")
        let startTs := midnightOf dateTs + 60 * h + m
        let endTs := startTs + st.details.duration.getD 0
        if env.createMeeting startTs endTs st.details.attendees then
          .brk st [.createdOk]
        else
          .brk st [.createFailed]
    else if !(cancelKeywords.contains (toLowerStr msg)) then
      .brk st [.startOver]
    else
      .brk st []
  | .confirmCancel => .brk st []
  | .selectCancel => .brk st []

/-- The `handleMeetingRequest` handler for one user: the per-user store
entry before and after processing one message, with the replies sent.
Cancellation keywords are checked first and clear an existing dialogue; with
no dialogue the entry analysis opens one; otherwise the step branch runs and
a `brk` outcome is followed by the trailing store write. -/
def handleMeetingRequest (env : Env) (store : Option MeetingState) (msg : String) :
    Option MeetingState × List Reply :=
  if hasCancelKeyword msg && store.isSome then (none, [.cancelled])
  else
    match store with
    | none => (some (entryState env msg), [.entrySummary])
    | some st =>
      match stepBody env st msg with
      | .ret store' replies => (store', replies)
      | .brk st' replies => (some st', replies)

/-! ## Top-level routing (`handleMessage`, `isMeetingRequest`) -/

/-- Word-boundary `\b` before a word character: start of string or a
non-word predecessor. -/
def boundaryOk : Option Char → Bool
  | none => true
  | some c => !isWordC c

/-- Word-boundary `\b` after a word character: end of string or a non-word
successor. -/
def boundaryAfter : List Char → Bool
  | [] => true
  | c :: _ => !isWordC c

/-- A word alternative matching at this position with its trailing
boundary. -/
def matchWordHere (w : List Char) (l : List Char) : Bool :=
  w.isPrefixOf l && boundaryAfter (l.drop w.length)

/-- Unanchored search for `\b(w1|w2|...)\b` over a lower-cased message,
threading the predecessor character for the leading boundary. -/
def scanWordAlt (words : List (List Char)) : Option Char → List Char → Bool
  | _, [] => false
  | prev, c :: rest =>
    (boundaryOk prev && words.any (fun w => matchWordHere w (c :: rest))) ||
    scanWordAlt words (some c) rest

/-- Test `\b(w1|...)\b` anywhere in the message (ignore-case). -/
def testWordAlt (words : List String) (msg : String) : Bool :=
  scanWordAlt (words.map String.toList) none (lowerL msg)

/-- The `set\s*up` alternative of the first meeting-keyword pattern,
matching at this position with its trailing boundary. -/
def setUpHere (l : List Char) : Bool :=
  ['s', 'e', 't'].isPrefixOf l &&
    (let r := dropSpaces0 (l.drop 3)
     ['u', 'p'].isPrefixOf r && boundaryAfter (r.drop 2))

/-- Search for the first meeting-keyword pattern
`\b(schedule|set\s*up|book|arrange|plan)\b`. -/
def scanScheduleAlt : Option Char → List Char → Bool
  | _, [] => false
  | prev, c :: rest =>
    (boundaryOk prev &&
      ([['s', 'c', 'h', 'e', 'd', 'u', 'l', 'e'], ['b', 'o', 'o', 'k'],
        ['a', 'r', 'r', 'a', 'n', 'g', 'e'],
        ['p', 'l', 'a', 'n']].any (fun w => matchWordHere w (c :: rest)) ||
       setUpHere (c :: rest))) ||
    scanScheduleAlt (some c) rest

/-- The verb alternatives of the cancel-phrase regex, also the fourth
meeting-keyword pattern `\b(cancel|delete)\b`. -/
def cancelVerbWords : List (List Char) :=
  [['c', 'a', 'n', 'c', 'e', 'l'], ['d', 'e', 'l', 'e', 't', 'e']]

/-- The `isMeetingRequest` intent predicate: some of the seven keyword
regexes matches the message. -/
def isMeetingRequest (msg : String) : Bool :=
  let l := lowerL msg
  scanScheduleAlt none l ||
  scanWordAlt [['u', 'p', 'd', 'a', 't', 'e'], ['c', 'h', 'a', 'n', 'g', 'e'],
    ['m', 'o', 'd', 'i', 'f', 'y']] none l ||
  scanWordAlt [['r', 'e', 's', 'c', 'h', 'e', 'd', 'u', 'l', 'e'],
    ['m', 'o', 'v', 'e'], ['p', 'o', 's', 't', 'p', 'o', 'n', 'e']] none l ||
  scanWordAlt cancelVerbWords none l ||
  scanWordAlt [['m', 'e', 'e', 't', 'i', 'n', 'g']] none l ||
  scanWordAlt [['c', 'a', 'l', 'l']] none l ||
  scanWordAlt [['a', 'p', 'p', 'o', 'i', 'n', 't', 'm', 'e', 'n', 't']] none l

/-- The noun alternatives of the cancel-phrase regex. -/
def cancelNounWords : List (List Char) :=
  [['m', 'e', 'e', 't', 'i', 'n', 'g'],
   ['a', 'p', 'p', 'o', 'i', 'n', 't', 'm', 'e', 'n', 't']]

/-- Search for `\b(cancel|delete)\b.*\b(meeting|appointment)\b`: a verb
match at some position whose remainder contains a noun match. -/
def scanCancelNounPair : Option Char → List Char → Bool
  | _, [] => false
  | prev, c :: rest =>
    (boundaryOk prev && cancelVerbWords.any (fun w =>
      matchWordHere w (c :: rest) &&
      scanWordAlt cancelNounWords w.getLast? ((c :: rest).drop w.length))) ||
    scanCancelNounPair (some c) rest

/-- The cancel-phrase routing test. -/
def cancelPhraseMatch (msg : String) : Bool :=
  scanCancelNounPair none (lowerL msg)

/-- Search for `\b(check|list|show|view|get)\b.*\b(meetings|schedule|calendar)\b`. -/
def scanListNounPair : Option Char → List Char → Bool
  | _, [] => false
  | prev, c :: rest =>
    (boundaryOk prev && ([['c', 'h', 'e', 'c', 'k'], ['l', 'i', 's', 't'],
        ['s', 'h', 'o', 'w'], ['v', 'i', 'e', 'w'],
        ['g', 'e', 't']].any (fun w =>
      matchWordHere w (c :: rest) &&
      scanWordAlt [['m', 'e', 'e', 't', 'i', 'n', 'g', 's'],
        ['s', 'c', 'h', 'e', 'd', 'u', 'l', 'e'],
        ['c', 'a', 'l', 'e', 'n', 'd', 'a', 'r']] w.getLast?
        ((c :: rest).drop w.length)))) ||
    scanListNounPair (some c) rest

/-- The list-phrase routing test. -/
def listPhraseMatch (msg : String) : Bool :=
  scanListNounPair none (lowerL msg)

/-- The update-verb routing test
`\b(update|change|move|postpone|reschedule)\b`. -/
def updateVerbMatch (msg : String) : Bool :=
  testWordAlt ["update", "change", "move", "postpone", "reschedule"] msg

/-- The handler a message is routed to by `handleMessage`. -/
inductive Route where
  | meeting | cancelRequest | listMeetings | updateRequest | chat
deriving DecidableEq, Repr

/-- The `handleMessage` routing decision for one user, given the
dialogue-store entry of that user: meeting intent or an open dialogue wins, then the
cancel phrase, then the list phrase, then the update verbs, else chat. -/
def route (store : Option MeetingState) (msg : String) : Route :=
  if isMeetingRequest msg || store.isSome then .meeting
  else if cancelPhraseMatch msg then .cancelRequest
  else if listPhraseMatch msg then .listMeetings
  else if updateVerbMatch msg then .updateRequest
  else .chat

/-! ## Concrete instances used in the evaluation theorems -/

/-- A trivial generic date parser: the host `new Date(string)` recognising
nothing (sufficient for messages whose date tokens never reach it). -/
def noParse : String → Option Int := fun _ => none

/-- A reference clock: Monday 2026-10-12, 10:30 local time. -/
def now0 : Int := 1440 * daysFromCivil 2026 10 12 + 10 * 60 + 30

/-- An environment with no calendar authorisation. -/
def envPlain : Env := ⟨now0, false, fun _ _ _ => false, noParse⟩

/-- An environment that is authorised and whose calendar creation
succeeds. -/
def envAuthOk : Env := ⟨now0, true, fun _ _ _ => true, noParse⟩

/-- A dialogue at the `confirm` step with every slot filled. -/
def sConfirm : MeetingState :=
  ⟨.confirm, ⟨some (1440 * daysFromCivil 2026 10 13), some "15:00", some 30,
    ["john@x.com"], none⟩⟩

/-- A dialogue waiting at the `duration` step. -/
def sDuration : MeetingState :=
  ⟨.duration, ⟨some (1440 * daysFromCivil 2026 10 13), some "15:00", none,
    ["john@x.com"], none⟩⟩

/-- The fully-specified round-trip message of the specification. -/
def fullMsg : String :=
  "schedule a meeting with john@x.com tomorrow at 3pm for 30 minutes"

/-- The timestamp of 2026-12-25 00:00. -/
def tsDec25 : Int := 1440 * daysFromCivil 2026 12 25

/-! ## Helper lemmas -/

/-- A `find?` over a split list returns the head of the second part when the
first part is all misses and that head is a hit. -/
theorem find_first_of_split {α : Type} (p : α → Bool) (l₁ : List α) (a : α)
    (l₂ : List α) (h1 : ∀ x ∈ l₁, p x = false) (ha : p a = true) :
    List.find? p (l₁ ++ a :: l₂) = some a := by
  induction l₁ with
  | nil => simp [List.find?, ha]
  | cons b bs ih =>
    have hb : p b = false := h1 b (by simp)
    simp only [List.cons_append, List.find?, hb]
    exact ih (fun x hx => h1 x (by simp [hx]))

/-- A `find?` over a list with no hit at all is `none`. -/
theorem find?_eq_none_of_any_false {α : Type} (p : α → Bool) (l : List α)
    (h : l.any p = false) : List.find? p l = none := by
  induction l with
  | nil => rfl
  | cons b bs ih =>
    simp only [List.any_cons, Bool.or_eq_false_iff] at h
    simp only [List.find?, h.1]
    exact ih h.2

/-- With no relative date expression contained in the input, the relative
table lookup of `parseDateInput` misses. -/
theorem findRel_none (s : String) (h : hasRelativeDateExpr s = false) :
    findRelExpr s = none :=
  find?_eq_none_of_any_false _ _ h

/-- A guarded date is always on or after today at midnight. -/
theorem guardDate_le (now ts d : Int) (h : guardDate now ts = some d) :
    midnightOf now ≤ d := by
  unfold guardDate at h
  split at h
  · cases h
    exact of_decide_eq_true ‹isValidFutureDate now ts = true›
  · cases h

/-- Every date produced by the spelled-ordinal scan is future-valid. -/
theorem dayWordScan_future (now : Int) (monthIdx : Nat) (month : List Char)
    (defYear : Int) (l : List Char) (tbl : List (String × Nat)) (d : Int)
    (h : dayWordScan now monthIdx month defYear l tbl = some (some d)) :
    midnightOf now ≤ d := by
  induction tbl with
  | nil => simp [dayWordScan] at h
  | cons wn rest ih =>
    obtain ⟨w, dn⟩ := wn
    unfold dayWordScan at h
    cases hscan : scanFirst (monthPat2At w.toList month) l with
    | some yr =>
      simp only [hscan, Option.some.injEq] at h
      exact guardDate_le _ _ _ h
    | none =>
      simp only [hscan] at h
      exact ih h

/-- Every date produced by the month-name scan is future-valid. -/
theorem monthScan_future (now defYear : Int) (l : List Char)
    (tbl : List (Nat × String)) (d : Int)
    (h : monthScan now defYear l tbl = some (some d)) :
    midnightOf now ≤ d := by
  induction tbl with
  | nil => simp [monthScan] at h
  | cons en rest ih =>
    obtain ⟨idx, name⟩ := en
    unfold monthScan at h
    cases hscan : scanFirst (monthPat1At (name.toList.take 3)) l with
    | some dayr =>
      obtain ⟨day, yr⟩ := dayr
      simp only [hscan, Option.some.injEq] at h
      exact guardDate_le _ _ _ h
    | none =>
      simp only [hscan] at h
      cases hdw : dayWordScan now idx name.toList defYear l dayNumbers with
      | some r =>
        simp only [hdw, Option.some.injEq] at h
        subst h
        exact dayWordScan_future _ _ _ _ _ _ _ hdw
      | none =>
        simp only [hdw] at h
        exact ih h

/-- A cancel-verb-then-noun pair match contains, in particular, a cancel-verb
word-boundary match. -/
theorem scanCancelNounPair_weaken (l : List Char) :
    ∀ prev, scanCancelNounPair prev l = true →
      scanWordAlt cancelVerbWords prev l = true := by
  induction l with
  | nil => intro prev h; cases h
  | cons c rest ih =>
    intro prev h
    simp only [scanCancelNounPair, Bool.or_eq_true, Bool.and_eq_true] at h
    simp only [scanWordAlt, Bool.or_eq_true, Bool.and_eq_true]
    rcases h with ⟨hb, hany⟩ | hrec
    · left
      refine ⟨hb, ?_⟩
      rw [List.any_eq_true] at hany ⊢
      obtain ⟨w, hw, hcond⟩ := hany
      rw [Bool.and_eq_true] at hcond
      exact ⟨w, hw, hcond.1⟩
    · exact Or.inr (ih _ hrec)

/-! ## Claim theorems -/

/-- C1: at the `confirm` step the source intends to destroy the dialogue —
it calls `userMeetingStates.delete` both after a successful execution and on
a reply that is neither a "yes" substring nor a cancel keyword — but the
unconditional `userMeetingStates.set(userId, state)` after the `switch`
immediately re-adds the state object, so the store still holds the dialogue
(step still `confirm`, slots intact) when the handler returns.  This theorem
evaluates both paths at the failing inputs. -/
theorem confirm_step_store_retained :
    handleMeetingRequest envPlain (some sConfirm) "maybe" =
      (some sConfirm, [Reply.startOver]) ∧
    handleMeetingRequest envAuthOk (some sConfirm) "yes" =
      (some sConfirm, [Reply.createdOk]) := by
  constructor
  · decide
  · decide

/-- C2 counterexample: the fully-specified message does not open the
dialogue at `confirm` — the date-token regex matches the bare "tomorrow" in
its non-capturing prefix, leaving the captured group (and hence
`extractedInfo.date`) empty, so the date slot stays unfilled and the entry
step is `collect_date`. -/
theorem roundtrip_message_not_at_confirm :
    (handleMeetingRequest envPlain none fullMsg).1.map MeetingState.step =
      some Step.date ∧ Step.date ≠ Step.confirm := by
  constructor
  · decide
  · decide

/-- C2 as amended: entry extraction on the fully-specified message pre-fills
the time ("15:00"), duration (30) and attendees (["john@x.com"]) slots but
not the date slot, and the dialogue therefore opens at the `collect_date`
step. -/
theorem roundtrip_message_entry_slots :
    handleMeetingRequest envPlain none fullMsg =
      (some ⟨Step.date,
        { date := none, time := some "15:00", duration := some 30,
          attendees := ["john@x.com"], description := none }⟩,
       [Reply.entrySummary]) := by
  decide

/-- C3 counterexample: on Saturday 2026-10-10 the "next friday" resolution
lands only 6 days ahead (not in the claimed 7..13 band), and on Monday
2026-10-12 the "last friday" resolution yields 2026-10-30, which lies after
today rather than strictly before it. -/
theorem next_friday_six_days_counterexample :
    getWeekdayDate ⟨2026, 9, 10⟩ "friday" "next" =
      some (civilToNum ⟨2026, 9, 10⟩ + 6) ∧
    ¬(7 : Int) ≤ 6 ∧
    getWeekdayDate ⟨2026, 9, 12⟩ "friday" "last" =
      some (civilToNum ⟨2026, 9, 30⟩) ∧
    civilToNum ⟨2026, 9, 12⟩ < civilToNum ⟨2026, 9, 30⟩ := by
  refine ⟨by decide, by decide, by decide, by decide⟩

/-- C3 as amended: for every current date, `getWeekdayDate "friday" "next"`
returns a Friday lying 6 to 12 days ahead (6 exactly when today is
Saturday), and `getWeekdayDate "friday" "last"` returns the last Friday of
the current month — the unique Friday in the final seven days ending at
month-end — regardless of whether it falls before or after today. -/
theorem getWeekdayDate_friday_characterization (today : CivilDate) (r s : Int)
    (hr : getWeekdayDate today "friday" "next" = some r)
    (hs : getWeekdayDate today "friday" "last" = some s) :
    (weekdayOf r = 5 ∧ 6 ≤ r - civilToNum today ∧ r - civilToNum today ≤ 12) ∧
    (weekdayOf s = 5 ∧ s ≤ lastOfMonthNum today ∧ lastOfMonthNum today < s + 7) := by
  have e1 : getWeekdayDate today "friday" "next" =
      some (civilToNum today + ((5 : Int) - weekdayOf (civilToNum today) + 7)) := rfl
  have e2 : getWeekdayDate today "friday" "last" =
      some (lastOfMonthNum today +
        (if (5 : Int) - weekdayOf (lastOfMonthNum today) > 0
         then (5 : Int) - weekdayOf (lastOfMonthNum today) - 7
         else (5 : Int) - weekdayOf (lastOfMonthNum today))) := rfl
  rw [e1, Option.some.injEq] at hr
  rw [e2, Option.some.injEq] at hs
  obtain ⟨w, hw⟩ : ∃ w, (civilToNum today + 4) % 7 = w := ⟨_, rfl⟩
  obtain ⟨u, hu⟩ : ∃ u, (lastOfMonthNum today + 4) % 7 = u := ⟨_, rfl⟩
  clear e1 e2
  constructor
  · simp only [weekdayOf] at hr
    rw [hw] at hr
    subst hr
    simp only [weekdayOf]
    refine ⟨?_, ?_, ?_⟩ <;> omega
  · split_ifs at hs with hc
    · simp only [weekdayOf] at hs hc
      rw [hu] at hs hc
      subst hs
      simp only [weekdayOf]
      refine ⟨?_, ?_, ?_⟩ <;> omega
    · simp only [weekdayOf] at hs hc
      rw [hu] at hs hc
      subst hs
      simp only [weekdayOf]
      refine ⟨?_, ?_, ?_⟩ <;> omega

/-- Witness for C3: the characterisation applied to Saturday 2026-10-10. -/
theorem getWeekdayDate_friday_characterization_witness :
    (weekdayOf (civilToNum ⟨2026, 9, 10⟩ + 6) = 5 ∧
     6 ≤ civilToNum ⟨2026, 9, 10⟩ + 6 - civilToNum ⟨2026, 9, 10⟩ ∧
     civilToNum ⟨2026, 9, 10⟩ + 6 - civilToNum ⟨2026, 9, 10⟩ ≤ 12) ∧
    (weekdayOf (civilToNum ⟨2026, 9, 30⟩) = 5 ∧
     civilToNum ⟨2026, 9, 30⟩ ≤ lastOfMonthNum ⟨2026, 9, 10⟩ ∧
     lastOfMonthNum ⟨2026, 9, 10⟩ < civilToNum ⟨2026, 9, 30⟩ + 7) :=
  getWeekdayDate_friday_characterization ⟨2026, 9, 10⟩ _ _ (by decide) (by decide)

/-- C4 counterexample: a message containing the table expression
"afternoon" does not resolve to the table value "14:00" of that expression;
the earlier-declared "noon" is a substring of "afternoon" and wins, giving
"12:00". -/
theorem afternoon_resolves_to_noon_value :
    extractTime "let us meet in the afternoon" = some "12:00" ∧
    TIME_EXPRESSIONS.find? (fun p => p.1 == "afternoon") =
      some ("afternoon", "14:00") ∧
    ("12:00" : String) ≠ "14:00" := by
  refine ⟨by decide, by decide, by decide⟩

/-- C4 as amended: `extractTime` returns the table value of the
first-declared named expression contained in the message; a message
containing an expression therefore yields the own value of that expression
exactly when no earlier-declared expression also occurs in it (which fails
for "afternoon", "early morning" and "late night", shadowed by "noon",
"morning" and "night"). -/
theorem extractTime_first_table_match (msg : String)
    (l₁ l₂ : List (String × String)) (e v : String)
    (htab : TIME_EXPRESSIONS = l₁ ++ (e, v) :: l₂)
    (hpre : ∀ p ∈ l₁, strContains (toLowerStr msg) p.1 = false)
    (he : strContains (toLowerStr msg) e = true) :
    extractTime msg = some v := by
  have hfind : firstTimeExpr (toLowerStr msg) = some (e, v) := by
    unfold firstTimeExpr
    rw [htab]
    exact find_first_of_split _ _ _ _ hpre he
  simp [extractTime, hfind]

/-- Witness for C4: the expression "noon" heads the table, so it resolves to
its own value in any surrounding text. -/
theorem extractTime_first_table_match_witness :
    extractTime "let us meet at noon ok?" = some "12:00" :=
  extractTime_first_table_match "let us meet at noon ok?" []
    (TIME_EXPRESSIONS.drop 1) "noon" "12:00" rfl
    (by intro p hp; simp at hp) (by decide)

/-- C5: in the pattern branch of `extractTime`, "pm" adds 12 unless the hour
is already at least 12, "am" maps hour 12 to 0, and with no meridian an
evening/night cue promotes hours below 12; in particular "2pm" gives
"14:00", "12am" gives "00:00", "12pm" gives "12:00" and "9" gives
"09:00". -/
theorem meridian_normalization :
    (∀ h cue, h < 12 → normalizeHour h (some "pm") cue = h + 12) ∧
    (∀ h cue, 12 ≤ h → normalizeHour h (some "pm") cue = h) ∧
    (∀ cue, normalizeHour 12 (some "am") cue = 0) ∧
    (∀ h, h < 12 → normalizeHour h none true = h + 12) ∧
    extractTime "2pm" = some "14:00" ∧ extractTime "12am" = some "00:00" ∧
    extractTime "12pm" = some "12:00" ∧ extractTime "9" = some "09:00" := by
  refine ⟨?_, ?_, ?_, ?_, by decide, by decide, by decide, by decide⟩
  · intro h cue hh
    simp [normalizeHour, hh, show strContains "pm" "p" = true from rfl,
      show strContains "pm" "a" = false from rfl]
  · intro h cue hh
    simp [normalizeHour, Nat.not_lt.mpr hh,
      show strContains "pm" "p" = true from rfl,
      show strContains "pm" "a" = false from rfl]
  · intro cue
    simp [normalizeHour, show strContains "am" "p" = false from rfl,
      show strContains "am" "a" = true from rfl]
  · intro h hh
    simp [normalizeHour, hh]

/-- Witness for C5: the normalisation rules applied at concrete hours. -/
theorem meridian_normalization_witness :
    normalizeHour 2 (some "pm") false = 14 ∧
    normalizeHour 9 none true = 21 :=
  ⟨meridian_normalization.1 2 false (by decide),
   meridian_normalization.2.2.2.1 9 (by decide)⟩

/-- C6: a message containing any cancel keyword, arriving at any dialogue
step, clears the dialogue entry of that user before the per-step logic and sends
the acknowledgment; the next message is then handled exactly as if no
dialogue had ever existed, so a following meeting-flagged message opens a
brand-new dialogue with no slot carried over. -/
theorem cancel_keyword_clears_dialogue (env : Env) (s : MeetingState)
    (msg next : String) (h : hasCancelKeyword msg = true) :
    handleMeetingRequest env (some s) msg = (none, [Reply.cancelled]) ∧
    handleMeetingRequest env (handleMeetingRequest env (some s) msg).1 next =
      handleMeetingRequest env none next := by
  have h1 : handleMeetingRequest env (some s) msg = (none, [Reply.cancelled]) := by
    unfold handleMeetingRequest
    simp [h]
  exact ⟨h1, by rw [h1]⟩

/-- Witness for C6: cancelling a filled confirm-step dialogue and then
re-issuing a scheduling message. -/
theorem cancel_keyword_clears_dialogue_witness :
    handleMeetingRequest envPlain (some sConfirm) "cancel" =
      (none, [Reply.cancelled]) ∧
    handleMeetingRequest envPlain
        (handleMeetingRequest envPlain (some sConfirm) "cancel").1
        "schedule a meeting" =
      handleMeetingRequest envPlain none "schedule a meeting" :=
  cancel_keyword_clears_dialogue envPlain sConfirm "cancel"
    "schedule a meeting" (by decide)

/-- C7: every date returned through a non-relative branch of
`parseDateInput` (numeric, month-name, spelled-ordinal, generic parse) is on
or after today at midnight, for every clock value and every host generic
parser; and a numeric match whose date lies strictly before today at
midnight makes the resolver return no result. -/
theorem parseDateInput_future_guard (now : Int) (jsParse : String → Option Int)
    (input : String) (d : Int)
    (hrel : hasRelativeDateExpr (toLowerStr input) = false)
    (h : parseDateInput now jsParse input = some d) :
    midnightOf now ≤ d := by
  simp only [parseDateInput] at h
  rw [findRel_none _ hrel] at h
  cases hn : numericParse (toLowerStr input).toList with
  | some dmy =>
    obtain ⟨day, mon, yr⟩ := dmy
    simp only [hn] at h
    exact guardDate_le _ _ _ h
  | none =>
    simp only [hn] at h
    cases hm : monthScan now (civilOf now).year (toLowerStr input).toList monthTable with
    | some r =>
      simp only [hm] at h
      subst h
      exact monthScan_future _ _ _ _ _ hm
    | none =>
      simp only [hm] at h
      cases hj : jsParse input with
      | some ts =>
        simp only [hj] at h
        split at h
        · rename_i hval
          cases h
          exact of_decide_eq_true hval
        · cases h
      | none => simp [hj] at h

/-- Witness for C7: the numeric input "25-12-2026" resolves under the
reference clock and carries the future-date bound. -/
theorem parseDateInput_future_guard_witness :
    parseDateInput now0 noParse "25-12-2026" = some tsDec25 ∧
    midnightOf now0 ≤ tsDec25 :=
  ⟨by decide,
   parseDateInput_future_guard now0 noParse "25-12-2026" tsDec25
     (by decide) (by decide)⟩

/-- C8: a message that satisfies the meeting-keyword predicate, or arrives
while the user has an open dialogue, is routed to the scheduling handler
before the cancel-phrase, list-phrase and update-verb rules are considered;
in particular a message matching both the meeting and the list keywords
routes to scheduling, never to listing. -/
theorem meeting_route_precedence :
    (∀ (store : Option MeetingState) (msg : String),
      (isMeetingRequest msg || store.isSome) = true →
      route store msg = Route.meeting) ∧
    (∀ (store : Option MeetingState) (msg : String),
      isMeetingRequest msg = true → listPhraseMatch msg = true →
      route store msg = Route.meeting) := by
  constructor
  · intro store msg h
    unfold route
    simp [h]
  · intro store msg h _
    unfold route
    simp [h]

/-- Witness for C8: "show my meeting schedule" satisfies both the meeting
keywords and the list phrase and is routed to scheduling. -/
theorem meeting_route_precedence_witness :
    route none "show my meeting schedule" = Route.meeting :=
  meeting_route_precedence.2 none "show my meeting schedule"
    (by decide) (by decide)

/-- C9 counterexample: at the `collect_duration` step the message "nope"
parses to NaN, yet the dialogue is not re-prompted in place — the
substring "no" triggers the cancellation check first and the dialogue entry
is deleted. -/
theorem duration_nan_cancel_counterexample :
    parseIntJs "nope" = none ∧
    handleMeetingRequest envPlain (some sDuration) "nope" =
      (none, [Reply.cancelled]) ∧
    (none : Option MeetingState) ≠ some sDuration := by
  refine ⟨by decide, by decide, by decide⟩

/-- C9 as amended: at the `collect_duration` step, for every message that
contains no cancel keyword: a NaN parse or a parsed value outside (0, 480]
re-prompts and leaves the store entry (step and all slots) unchanged, while
a parsed value in (0, 480] — including the boundary values 1 and 480 — is
stored as the duration and the dialogue advances to the description step. -/
theorem duration_step_validation (env : Env) (st : MeetingState) (msg : String)
    (hstep : st.step = Step.duration) (hnc : hasCancelKeyword msg = false) :
    (parseIntJs msg = none →
      handleMeetingRequest env (some st) msg = (some st, [Reply.invalidDuration])) ∧
    (∀ d, parseIntJs msg = some d → d ≤ 0 ∨ 480 < d →
      handleMeetingRequest env (some st) msg = (some st, [Reply.invalidDuration])) ∧
    (∀ d, parseIntJs msg = some d → 0 < d → d ≤ 480 →
      handleMeetingRequest env (some st) msg =
        (some ⟨Step.description, { st.details with duration := some d }⟩,
         [Reply.askDescription])) := by
  obtain ⟨stp, dtl⟩ := st
  simp only [MeetingState.mk.injEq] at hstep ⊢
  subst hstep
  refine ⟨?_, ?_, ?_⟩
  · intro hp
    unfold handleMeetingRequest
    simp [hnc, stepBody, hp]
  · intro d hp hrange
    unfold handleMeetingRequest
    have : (d ≤ 0 ∨ 480 < d) = True := by simp [hrange]
    simp [hnc, stepBody, hp, this]
  · intro d hp h0 h480
    unfold handleMeetingRequest
    have : ¬(d ≤ 0 ∨ 480 < d) := by omega
    simp [hnc, stepBody, hp, this]

/-- Witness for C9: "480" and "1" are accepted and advance to the
description step; "481" is rejected in place. -/
theorem duration_step_validation_witness :
    handleMeetingRequest envPlain (some sDuration) "480" =
      (some ⟨Step.description, { sDuration.details with duration := some 480 }⟩,
       [Reply.askDescription]) ∧
    handleMeetingRequest envPlain (some sDuration) "1" =
      (some ⟨Step.description, { sDuration.details with duration := some 1 }⟩,
       [Reply.askDescription]) ∧
    handleMeetingRequest envPlain (some sDuration) "481" =
      (some sDuration, [Reply.invalidDuration]) :=
  ⟨(duration_step_validation envPlain sDuration "480" rfl (by decide)).2.2
      480 (by decide) (by decide) (by decide),
   (duration_step_validation envPlain sDuration "1" rfl (by decide)).2.2
      1 (by decide) (by decide) (by decide),
   (duration_step_validation envPlain sDuration "481" rfl (by decide)).2.1
      481 (by decide) (by decide)⟩

/-- C10: the top-level router can never reach the dedicated cancel-meeting
flow: every message matching the cancel-phrase regex also satisfies the
meeting-keyword predicate (whose fourth pattern is the bare
`\b(cancel|delete)\b`), and the meeting route is checked first. -/
theorem cancel_flow_unreachable :
    (∀ msg, cancelPhraseMatch msg = true → isMeetingRequest msg = true) ∧
    (∀ (store : Option MeetingState) (msg : String),
      route store msg ≠ Route.cancelRequest) := by
  have himp : ∀ msg, cancelPhraseMatch msg = true → isMeetingRequest msg = true := by
    intro msg h
    unfold cancelPhraseMatch at h
    have h4 := scanCancelNounPair_weaken (lowerL msg) none h
    unfold isMeetingRequest
    simp [h4]
  refine ⟨himp, ?_⟩
  intro store msg
  unfold route
  by_cases h1 : (isMeetingRequest msg || store.isSome) = true
  · simp [h1]
  · simp only [Bool.or_eq_true, not_or, Bool.not_eq_true] at h1
    by_cases h2 : cancelPhraseMatch msg = true
    · exact absurd (himp msg h2) (by simp [h1.1])
    · simp only [Bool.not_eq_true] at h2
      simp only [h1.1, h1.2, h2, Bool.or_self, Bool.false_eq_true, if_false]
      cases hl : listPhraseMatch msg <;> cases hu : updateVerbMatch msg <;> simp

/-- Witness for C10: a full cancel-phrase message already satisfies the
meeting keywords. -/
theorem cancel_flow_unreachable_witness :
    isMeetingRequest "cancel my meeting" = true :=
  cancel_flow_unreachable.1 "cancel my meeting" (by decide)

end Remo
